import Mathlib

/-!
Verification of the bluesky-bot repository's core logic.

This file gives a shallow embedding, in Lean 4, of the pure core of the
bluesky-bot sources: the trigger matchers (`hasSemver`, `hasPublishKeyword`),
the repo allowlist (`repoMatchPattern`, `repoAllowed`), post truncation
(`fitPost`, `fitTweet`), webhook signature verification
(`verifyGitHubSignature`), the optional AI condensation step (`aiCondense`
from main.ts, `aiCondenseCli` from the CLI/hook variant), the webhook push
handler (`handlePush` from main.ts) over an explicit KV-store state, the
local-file dedupe store (`hasSeenSha`, `markSeenSha`), and the CLI decision
and publish steps (`shouldPost`, `publishPost`).

Strings are modelled as Lean `String`/`List Char` (the source operates on
JavaScript strings; all relevant characters are BMP, where one JS UTF-16
code unit corresponds to one `Char`).  External collaborators (crypto.subtle
HMAC, the OpenAI HTTP call, the Bluesky client, the system clock) are
modelled as explicit oracle parameters; everything the repository itself
computes is translated directly from the source.
-/

namespace BlueskyBot

/-- JavaScript word-character test (the `\w` class used by the regex word
boundary assertions in the source): ASCII letters, digits and underscore. -/
def isWordChar (c : Char) : Bool := c.isAlphanum || c == '_'

/-- Word-character test on an optional character; a string edge (no
character) counts as a non-word position, as in JavaScript regexes. -/
def wordAt : Option Char → Bool
  | none => false
  | some c => isWordChar c

/-- A regex word boundary holds between two adjacent positions iff exactly
one of the two sides is a word character. -/
def boundaryBetween (a b : Option Char) : Bool := wordAt a != wordAt b

/-- Splitting a character list at every occurrence of a separator character,
the semantics of JavaScript `String.prototype.split` with a one-character
separator (used in the source as `data.split("\n")` and for the dot-separated
identifier groups of the semver regex). -/
def splitOnChar (sep : Char) : List Char → List (List Char)
  | [] => [[]]
  | c :: rest =>
    match splitOnChar sep rest with
    | [] => [[]]
    | hd :: tl => if c == sep then [] :: hd :: tl else (c :: hd) :: tl

/-- JavaScript `String.prototype.trim` on a character list: drop whitespace
from both ends. -/
def trimChars (l : List Char) : List Char :=
  ((l.dropWhile Char.isWhitespace).reverse.dropWhile Char.isWhitespace).reverse

/-- JavaScript `s.trim()` on strings. -/
def strTrim (s : String) : String := ⟨trimChars s.data⟩

/-- JavaScript `s.toLowerCase()` (ASCII case folding suffices for the
configuration strings compared in the source). -/
def strToLower (s : String) : String := ⟨s.data.map Char.toLower⟩

/-- Does `p` occur at the very start of `l`?  (JavaScript `startsWith`.) -/
def leadsWith : List Char → List Char → Bool
  | [], _ => true
  | _ :: _, [] => false
  | p :: ps, c :: cs => p == c && leadsWith ps cs

/-- Does `sub` occur contiguously anywhere in `hay`?
(JavaScript `String.prototype.includes`.) -/
def containsSeq (sub : List Char) : List Char → Bool
  | [] => leadsWith sub []
  | c :: rest => leadsWith sub (c :: rest) || containsSeq sub rest

/-- Substring containment on strings. -/
def strContains (s sub : String) : Bool := containsSeq sub.data s.data

/-- The `shortSha` helper of the source: `sha.slice(0, 7)`. -/
def shortSha (sha : String) : String := ⟨sha.data.take 7⟩

/-- JavaScript `s.split(sep)` for a one-character separator, as a list of
strings. -/
def strSplitOn (sep : Char) (s : String) : List String :=
  (splitOnChar sep s.data).map (⟨·⟩)

/-! ## The semantic-version matcher

The source tests commit messages against the regex (main.ts `hasSemver`,
mod.ts `SEMVER_REGEX`, identical in all variants):

  `\b(?:v|V)?(0|[1-9]\d*)\.(0|[1-9]\d*)\.(0|[1-9]\d*)`
  `(?:-[0-9A-Za-z-]+(?:\.[0-9A-Za-z-]+)*)?(?:\+[0-9A-Za-z-]+(?:\.[0-9A-Za-z-]+)*)?\b`

`hasSemver msg` below holds iff some substring of `msg`, flanked by word
boundaries as required by the `\b` assertions, is in the language of the
body of that regex.  `isSemverToken` decides exact membership of a string in
that language. -/

/-- Exact match of `(0|[1-9]\d*)`: a non-negative decimal integer with no
leading zero except the literal `0`. -/
def numOk : List Char → Bool
  | [] => false
  | '0' :: rest => rest.isEmpty
  | c :: rest => c.isDigit && rest.all (·.isDigit)

/-- The character class `[0-9A-Za-z-]` of the prerelease and build segments. -/
def idChar (c : Char) : Bool := c.isAlphanum || c == '-'

/-- Exact match of `[0-9A-Za-z-]+(?:\.[0-9A-Za-z-]+)*`: one or more
dot-separated non-empty groups over the identifier class. -/
def idsOk (l : List Char) : Bool :=
  (splitOnChar '.' l).all (fun g => !g.isEmpty && g.all idChar)

/-- Exact membership of `mid` in the language of the semver regex body
(optional `v`/`V`, three dot-separated numbers, optional `-prerelease`,
optional `+build`). -/
def isSemverToken (mid : List Char) : Bool :=
  let body :=
    match mid with
    | 'v' :: rest => rest
    | 'V' :: rest => rest
    | l => l
  let core := body.takeWhile (fun c => !(c == '-' || c == '+'))
  let tailPart := body.dropWhile (fun c => !(c == '-' || c == '+'))
  let coreOk :=
    match splitOnChar '.' core with
    | [a, b, c] => numOk a && numOk b && numOk c
    | _ => false
  let tailOk :=
    match tailPart with
    | [] => true
    | '-' :: r =>
      let pre := r.takeWhile (fun c => !(c == '+'))
      let rest2 := r.dropWhile (fun c => !(c == '+'))
      idsOk pre &&
        (match rest2 with
         | [] => true
         | '+' :: b => idsOk b
         | _ => false)
    | '+' :: b => idsOk b
    | _ => false
  coreOk && tailOk

/-- Unanchored, word-boundary-delimited search for a semver token, i.e. the
semantics of `SEMVER_REGEX.test` on the character list of the message. -/
def hasSemverCore (chars : List Char) : Bool :=
  (List.range (chars.length + 1)).any fun i =>
    (List.range (chars.length - i + 1)).any fun n =>
      let pre := chars.take i
      let mid := (chars.drop i).take n
      let post := (chars.drop i).drop n
      boundaryBetween pre.getLast? mid.head? &&
      isSemverToken mid &&
      boundaryBetween mid.getLast? post.head?

/-- The `hasSemver` trigger matcher of main.ts (and of all CLI variants via
`SEMVER_REGEX`). -/
def hasSemver (msg : String) : Bool := hasSemverCore msg.data

/-- The literal characters of the marker keyword `@publish` (lower case). -/
def publishKeywordChars : List Char := ['@', 'p', 'u', 'b', 'l', 'i', 's', 'h']

/-- The `hasPublishKeyword` matcher of the CLI variants: the regex
`\B@publish\b` with the `i` flag.  `\B` before the `@` (a non-word
character) demands that the preceding position also be non-word; `\b` after
the final `h` demands that the following position be non-word. -/
def hasPublishKeyword (msg : String) : Bool :=
  let chars := msg.data
  (List.range (chars.length + 1)).any fun i =>
    let pre := chars.take i
    let mid := (chars.drop i).take 8
    let post := (chars.drop i).drop 8
    (mid.map Char.toLower == publishKeywordChars) &&
    (wordAt pre.getLast? == false) &&
    boundaryBetween mid.getLast? post.head?

/-! ## Post truncation -/

/-- The `POST_CHAR_LIMIT` constant of main.ts. -/
def POST_CHAR_LIMIT : Nat := 300

/-- The `fitPost` helper of main.ts:
`s.length <= max ? s : s.slice(0, max - 1) + "…"`.  The source gives `max`
the default value `POST_CHAR_LIMIT`; the single call site uses the default. -/
def fitPost (s : String) (max : Nat) : String :=
  if s.length ≤ max then s else ⟨s.data.take (max - 1) ++ ['…']⟩

/-- The `fitTweet` helper of the Twitter variant:
`s.length <= max ? s : s.slice(0, max - 1) + "…"` with default `max = 280`. -/
def fitTweet (s : String) (max : Nat) : String :=
  if s.length ≤ max then s else ⟨s.data.take (max - 1) ++ ['…']⟩

/-! ## Repo allowlist -/

/-- The `repoMatchPattern` function of main.ts.  A pattern is `*` (match
all) or an `owner/repo` shape where either segment may be `*`; segments are
extracted with `split("/")` and compared with `===` (JavaScript `undefined`
segments are modelled by `Option.none`, and `undefined === undefined` is
true, as in the source). -/
def repoMatchPattern (pattern repo : String) : Bool :=
  if pattern == "*" then true
  else
    let po := (strSplitOn '/' pattern).get? 0
    let pr := (strSplitOn '/' pattern).get? 1
    let ro := (strSplitOn '/' repo).get? 0
    let rr := (strSplitOn '/' repo).get? 1
    let ownerOk := po == some "*" || po == ro
    let repoOk := pr == some "*" || pr == rr
    ownerOk && repoOk

/-- The `repoAllowed` function of main.ts: an empty allowlist allows every
repo, otherwise at least one pattern must match. -/
def repoAllowed (allowPatterns : List String) (repo : String) : Bool :=
  if allowPatterns.length == 0 then true
  else allowPatterns.any (fun p => repoMatchPattern p repo)

/-- Construction of `ALLOW_PATTERNS` from the `REPO_ALLOWLIST` environment
string in main.ts: split on commas, trim, drop empty entries. -/
def parseAllowPatterns (s : String) : List String :=
  ((strSplitOn ',' s).map strTrim).filter (fun p => p != "")

/-! ## Data model of the webhook handler (main.ts) -/

/-- The `Commit` payload type of main.ts (`head_commit`); the nested
`author?.name` access is modelled by a single optional author name. -/
structure Commit where
  id : String
  message : String
  author : Option String
  deriving DecidableEq

/-- The `repository` part of the `GitHubPush` payload type of main.ts. -/
structure Repository where
  full_name : String
  html_url : String
  default_branch : String
  deriving DecidableEq

/-- The `GitHubPush` payload type of main.ts. -/
structure GitHubPush where
  ref : String
  repository : Repository
  head_commit : Option Commit
  deriving DecidableEq

/-- The `PostRecord` type of main.ts, stored in Deno KV under
`["posted", repo, sha]`. -/
structure PostRecord where
  postedAt : String
  postUri : String
  statusPreview : String
  deriving DecidableEq

/-- The JSON object returned by `handlePush`: a `status` and the optional
`reason`, `postUri`, `ref` and `expected` fields that appear on the various
return paths. -/
structure HandleResponse where
  status : String
  reason : Option String
  postUri : Option String
  ref : Option String
  expected : Option String
  deriving DecidableEq

/-- The Deno KV store restricted to the `["posted", repo, sha]` keys the
handler uses: an association list from `(repo, sha)` to `PostRecord`. -/
abbrev KV := List ((String × String) × PostRecord)

/-- Deno KV `kv.get(key)`: the record stored under `key`, if any. -/
def kvGet : KV → (String × String) → Option PostRecord
  | [], _ => none
  | (k, r) :: rest, key => if k = key then some r else kvGet rest key

/-- Deno KV `kv.set(key, r)`.  `handlePush` only calls it on a key whose
`kvGet` is `none`; a shadowing prepend realizes those semantics. -/
def kvSet (kv : KV) (key : String × String) (r : PostRecord) : KV :=
  (key, r) :: kv

/-- The environment-derived configuration of main.ts used by `handlePush`:
`BRANCH_ONLY`, the parsed `ALLOW_PATTERNS`, `OPENAI_API_KEY` and
`AI_SUMMARY`. -/
structure ServerEnv where
  BRANCH_ONLY : String
  ALLOW_PATTERNS : List String
  OPENAI_API_KEY : String
  AI_SUMMARY : String
  deriving DecidableEq

/-- Outcome of the one `fetch` to the OpenAI chat-completions endpoint:
either the request (or the subsequent body parse) threw, or it produced a
response with success flag `resOk` (`res.ok`) and the optional
`data.choices[0].message.content` string. -/
inductive FetchOutcome where
  | threw : FetchOutcome
  | responded (resOk : Bool) (content : Option String) : FetchOutcome
  deriving DecidableEq

/-- The `aiCondense` function of main.ts.  If no API key is configured or
`AI_SUMMARY` is `off`, the text is returned untouched without any request.
Otherwise the request is made; main.ts has no try/catch here, so a thrown
`fetch` propagates (modelled by `Except.error ()`).  A non-ok response falls
back to the input text; an ok response yields the trimmed content (or the
trimmed input text if the content is absent). -/
def aiCondense (apiKey aiSummary : String) (fetched : FetchOutcome)
    (text : String) : Except Unit String :=
  if apiKey == "" || strToLower aiSummary == "off" then .ok text
  else
    match fetched with
    | .threw => .error ()
    | .responded resOk content =>
      if !resOk then .ok text
      else .ok (strTrim (content.getD text))

/-- The `aiCondense` function of the CLI/hook variants (unnamed part_001 and
mod.ts): identical request logic, but the whole call is wrapped in
try/catch, so a thrown `fetch` also falls back to the input text and the
function never fails.  `hasTopics` only changes the prompt sent to the
collaborator, not the control flow (it is present in part_001 only). -/
def aiCondenseCli (apiKey aiSummary : String) (_hasTopics : Bool)
    (fetched : FetchOutcome) (text : String) : String :=
  if apiKey == "" || strToLower aiSummary == "off" then text
  else
    match fetched with
    | .threw => text
    | .responded resOk content =>
      if !resOk then text
      else strTrim (content.getD text)

/-- JavaScript `fullMsg.split("\n")[0]`. -/
def firstLineOf (s : String) : String := ⟨(splitOnChar '\n' s.data).headD []⟩

/-- Result of one `handlePush` invocation: the JSON response (`none` when
the handler threw, i.e. when an exception from `aiCondense` or
`blueskyPostStatus` propagated out of it), the KV store afterwards, and the
list of status texts handed to the publisher (`blueskyPostStatus`) during
the invocation. -/
structure StepResult where
  response : Option HandleResponse
  kv : KV
  published : List String
  deriving DecidableEq

/-- The `handlePush` function of main.ts over the explicit KV state.
External effects are oracle parameters: `aiFetch` is the outcome of the
OpenAI request (consulted only when AI condensation actually runs),
`publish` is the outcome of `blueskyPostStatus` (`Except.error ()` when it
throws after its internal retries), `now` is `new Date().toISOString()`. -/
def handlePush (env : ServerEnv) (aiFetch : FetchOutcome)
    (publish : Except Unit String) (now : String)
    (push : GitHubPush) (kv : KV) : StepResult :=
  let repo := push.repository.full_name
  if !(repoAllowed env.ALLOW_PATTERNS repo) then
    ⟨some ⟨"skip", some "repo_not_allowed", none, none, none⟩, kv, []⟩
  else
    match push.head_commit with
    | none => ⟨some ⟨"skip", some "no_head_commit", none, none, none⟩, kv, []⟩
    | some hc =>
      let targetBranch :=
        if env.BRANCH_ONLY == "" then push.repository.default_branch
        else env.BRANCH_ONLY
      let expected := "refs/heads/" ++ targetBranch
      if push.ref != expected then
        ⟨some ⟨"skip", some "wrong_branch", none, some push.ref, some expected⟩, kv, []⟩
      else
        let fullMsg := hc.message
        if !(hasSemver fullMsg) then
          ⟨some ⟨"skip", some "no_semver", none, none, none⟩, kv, []⟩
        else
          let sha := hc.id
          let tag := "#gh_" ++ shortSha sha
          let key := (repo, sha)
          match kvGet kv key with
          | some r =>
            ⟨some ⟨"skip", some "already_posted", some r.postUri, none, none⟩, kv, []⟩
          | none =>
            let firstLine := strTrim (firstLineOf fullMsg)
            match aiCondense env.OPENAI_API_KEY env.AI_SUMMARY aiFetch firstLine with
            | .error _ => ⟨none, kv, []⟩
            | .ok condensed =>
              let commitUrl := push.repository.html_url ++ "/commit/" ++ sha
              let author := hc.author.getD "unknown"
              let status := fitPost
                (condensed ++ " — " ++ repo ++ " by " ++ author ++ " (" ++
                  shortSha sha ++ ") " ++ commitUrl ++ " " ++ tag)
                POST_CHAR_LIMIT
              match publish with
              | .error _ => ⟨none, kv, [status]⟩
              | .ok uri =>
                ⟨some ⟨"posted", none, some uri, none, none⟩,
                  kvSet kv key ⟨now, uri, status⟩, [status]⟩

/-- One webhook delivery: the parsed push payload together with the
per-invocation oracle outcomes. -/
structure Delivery where
  push : GitHubPush
  aiFetch : FetchOutcome
  publish : Except Unit String
  now : String

/-- Does a push payload carry dedupe key `key`, i.e. name the same repo and
head-commit sha? -/
def carriesKey (push : GitHubPush) (key : String × String) : Bool :=
  push.repository.full_name == key.1 &&
    (match push.head_commit with
     | some hc => hc.id == key.2
     | none => false)

/-- Sequential processing of a list of deliveries, counting the publisher
calls made by deliveries that carry the key `key`. -/
def publishCountFor (env : ServerEnv) (key : String × String) :
    KV → List Delivery → Nat
  | _, [] => 0
  | kv, d :: ds =>
    let s := handlePush env d.aiFetch d.publish d.now d.push kv
    (if carriesKey d.push key then s.published.length else 0) +
      publishCountFor env key s.kv ds

/-! ## Local dedupe file (CLI/hook variants)

The dedupe file `.git/aug-bluesky-posted` is modelled by its character
content, `none` standing for a missing or unreadable file. -/

/-- Content of the local dedupe file; `none` models a missing or unreadable
file (any `Deno.readTextFile` failure). -/
abbrev DedupeFile := Option (List Char)

/-- The `hasSeenSha` function of mod.ts / part_001: read the file, split on
newlines and linearly scan for a line whose trimmed content equals `sha`;
any read failure yields `false`. -/
def hasSeenSha (sha : String) (file : DedupeFile) : Bool :=
  match file with
  | none => false
  | some data => (splitOnChar '\n' data).any (fun l => trimChars l == sha.data)

/-- The `markSeenSha` function of mod.ts / part_001: append `sha` plus a
newline to the file (creating it if missing).  The model assumes the write
succeeds; the source silently ignores write errors. -/
def markSeenSha (sha : String) (file : DedupeFile) : DedupeFile :=
  some ((file.getD []) ++ sha.data ++ ['\n'])

/-! ## CLI workflow (unnamed part_001) -/

/-- The `Config` type of part_001 / mod.ts. -/
structure Config where
  service : String
  handle : String
  password : String
  dryRun : Bool
  deriving DecidableEq

/-- The `RepoData` type of part_001 (GitHub repository enrichment). -/
structure RepoData where
  topics : List String
  name : String
  description : String
  htmlUrl : String
  homepage : Option String
  deriving DecidableEq

/-- The `CommitInfo` type of part_001. -/
structure CommitInfo where
  sha : String
  message : String
  author : String
  branch : String
  repo : String
  commitUrl : String
  repoData : Option RepoData
  deriving DecidableEq

/-- The `BlueskyError` type of part_001. -/
inductive BlueskyError where
  | AuthFailed (message : String) : BlueskyError
  | PostFailed (message : String) : BlueskyError
  deriving DecidableEq

/-- The `shouldPost` function of part_001.  `force` is the
`BLUESKY_FORCE=on` flag resolved from the environment; when set, the
function returns `true` immediately — before both the trigger gate and the
dedupe check.  Otherwise gate 1 requires `@publish` or a semver in the
message and gate 2 rejects an already-recorded sha. -/
def shouldPost (commit : CommitInfo) (force : Bool) (file : DedupeFile) : Bool :=
  if force then true
  else if !(hasPublishKeyword commit.message) && !(hasSemver commit.message) then false
  else if hasSeenSha commit.sha file then false
  else true

/-- Result of one `publishPost` invocation of part_001: the returned
`Result`, the dedupe file afterwards, and the number of post submissions
(`agent.post` calls) made. -/
structure PublishOutcome where
  result : Except BlueskyError Unit
  file : DedupeFile
  publishCalls : Nat

/-- The `publishPost` function of part_001 over the explicit dedupe-file
state.  In dry-run mode it returns success without any network call and
without touching the dedupe file.  Otherwise `createAgent` runs first
(outcome `authResult`; a login failure becomes `AuthFailed`), then the post
submission (outcome `postResult`, carrying the record uri on success; a
throw from rich-text processing or `agent.post` becomes `PostFailed`).
`markSeenSha` runs only after the submission returned successfully. -/
def publishPost (config : Config) (commit : CommitInfo)
    (authResult : Except String Unit) (postResult : Except String String)
    (file : DedupeFile) : PublishOutcome :=
  if config.dryRun then ⟨.ok (), file, 0⟩
  else
    match authResult with
    | .error m => ⟨.error (.AuthFailed m), file, 0⟩
    | .ok _ =>
      match postResult with
      | .error m => ⟨.error (.PostFailed m), file, 1⟩
      | .ok _uri => ⟨.ok (), markSeenSha commit.sha file, 1⟩

/-! ## GitHub webhook signature verification (main.ts)

`hmacSha256Hex` in the source delegates to the `crypto.subtle` platform
primitive; it is modelled by an abstract oracle `hmacHex` mapping the secret
and the raw body bytes to the hex digest characters.  Everything else —
header presence, the `sha256=` prefix, the length check and the
constant-time XOR comparison — is repository code, translated below. -/

/-- The characters of the literal header marker `sha256=`. -/
def sigMarkChars : List Char := ['s', 'h', 'a', '2', '5', '6', '=']

/-- The XOR-accumulate loop of the constant-time comparison in
`verifyGitHubSignature`: `ok |= their.charCodeAt(i) ^ ours.charCodeAt(i)`
over all positions. -/
def xorFold (a b : List Char) : Nat :=
  (a.zip b).foldl (fun ok p => ok ||| (p.1.toNat ^^^ p.2.toNat)) 0

/-- The `verifyGitHubSignature` function of main.ts over an abstract HMAC
oracle `hmacHex`: reject a missing header or one without the `sha256=`
marker, strip the marker, compute the expected digest, require equal
lengths, then XOR-accumulate over every character position and accept only
a zero accumulator. -/
def verifyGitHubSignature (hmacHex : String → List Nat → List Char)
    (secret : String) (raw : List Nat) (header : Option String) : Bool :=
  match header with
  | none => false
  | some sig =>
    if !(leadsWith sigMarkChars sig.data) then false
    else
      let their := sig.data.drop 7
      let ours := hmacHex secret raw
      if their.length != ours.length then false
      else xorFold their ours == 0

/-! ## Theorems -/

/-- C3.  Truncation postcondition for `fitPost` (limit 300, the Bluesky
backend) and `fitTweet` (limit 280, the Twitter backend): a string over the
limit is cut to exactly the limit, its last character is the ellipsis and
its first limit−1 characters are the first limit−1 characters of the input;
a string at or under the limit is returned unmodified. -/
theorem c3_truncation_postcondition (s : String) :
    (s.length ≤ 300 → fitPost s 300 = s) ∧
    (300 < s.length →
      (fitPost s 300).length = 300 ∧
      (fitPost s 300).data = s.data.take 299 ++ ['…'] ∧
      (fitPost s 300).data.getLast? = some '…') ∧
    (s.length ≤ 280 → fitTweet s 280 = s) ∧
    (280 < s.length →
      (fitTweet s 280).length = 280 ∧
      (fitTweet s 280).data = s.data.take 279 ++ ['…'] ∧
      (fitTweet s 280).data.getLast? = some '…') := by
  have hdlen : s.length = s.data.length := rfl
  refine ⟨fun h => ?_, fun h => ?_, fun h => ?_, fun h => ?_⟩
  · simp only [fitPost, if_pos h]
  · have hno : ¬ s.length ≤ 300 := by omega
    have hdata : (fitPost s 300).data = s.data.take 299 ++ ['…'] := by
      simp only [fitPost, if_neg hno]
    refine ⟨?_, hdata, ?_⟩
    · simp only [fitPost, if_neg hno, String.length_mk, List.length_append,
        List.length_take, List.length_singleton, inf_eq_min]
      simp only [hdlen] at h
      omega
    · rw [hdata]
      exact List.getLast?_concat _
  · simp only [fitTweet, if_pos h]
  · have hno : ¬ s.length ≤ 280 := by omega
    have hdata : (fitTweet s 280).data = s.data.take 279 ++ ['…'] := by
      simp only [fitTweet, if_neg hno]
    refine ⟨?_, hdata, ?_⟩
    · simp only [fitTweet, if_neg hno, String.length_mk, List.length_append,
        List.length_take, List.length_singleton, inf_eq_min]
      simp only [hdlen] at h
      omega
    · rw [hdata]
      exact List.getLast?_concat _

/-- Witness for C3 at concrete inputs: a 301-character string is cut to 300
characters ending in the ellipsis, a 281-character string to 280, and short
strings pass through unchanged. -/
theorem c3_truncation_postcondition_witness :
    (fitPost ⟨List.replicate 301 'a'⟩ 300).length = 300 ∧
    (fitPost ⟨List.replicate 301 'a'⟩ 300).data =
      (List.replicate 301 'a').take 299 ++ ['…'] ∧
    (fitPost ⟨List.replicate 301 'a'⟩ 300).data.getLast? = some '…' ∧
    fitPost "ok" 300 = "ok" ∧
    (fitTweet ⟨List.replicate 281 'b'⟩ 280).length = 280 ∧
    fitTweet "ok" 280 = "ok" := by
  have h301 : (⟨List.replicate 301 'a'⟩ : String).length = 301 := by
    simp only [String.length_mk, List.length_replicate]
  have h281 : (⟨List.replicate 281 'b'⟩ : String).length = 281 := by
    simp only [String.length_mk, List.length_replicate]
  have hp := c3_truncation_postcondition ⟨List.replicate 301 'a'⟩
  have ht := c3_truncation_postcondition ⟨List.replicate 281 'b'⟩
  have hs := c3_truncation_postcondition "ok"
  refine ⟨(hp.2.1 (by omega)).1, (hp.2.1 (by omega)).2.1, (hp.2.1 (by omega)).2.2,
    hs.1 (by decide), (ht.2.2.2 (by omega)).1, hs.2.2.1 (by decide)⟩

/-- C5.  The semantic-version matcher on the spec's examples: it accepts
`1.2.3`, `v2.0.0-beta.1` and `2.0.0+build.5`, and rejects `1.2` and
`01.2.3` (leading zero). -/
theorem c5_semver_examples :
    hasSemver "1.2.3" = true ∧
    hasSemver "v2.0.0-beta.1" = true ∧
    hasSemver "2.0.0+build.5" = true ∧
    hasSemver "1.2" = false ∧
    hasSemver "01.2.3" = false := by
  decide

/-- C9.  Allowlist matching: `myorg/*` matches `myorg/app1` and not
`other/app1`; `*` matches every repo; an empty allowlist (whether given as
an empty pattern list or parsed from an empty `REPO_ALLOWLIST` string)
allows every repo; non-wildcard segments compare exactly and
case-sensitively. -/
theorem c9_allowlist_matching :
    repoMatchPattern "myorg/*" "myorg/app1" = true ∧
    repoMatchPattern "myorg/*" "other/app1" = false ∧
    (∀ repo : String, repoMatchPattern "*" repo = true) ∧
    (∀ repo : String, repoAllowed [] repo = true) ∧
    (∀ repo : String, repoAllowed (parseAllowPatterns "") repo = true) ∧
    repoAllowed ["myorg/*"] "myorg/app1" = true ∧
    repoAllowed ["myorg/*"] "other/app1" = false ∧
    repoMatchPattern "MyOrg/*" "myorg/app1" = false ∧
    repoMatchPattern "myorg/app1" "myorg/app1" = true ∧
    repoMatchPattern "myorg/app1" "myorg/app10" = false := by
  have hstar : ∀ repo : String, repoMatchPattern "*" repo = true := fun _ => rfl
  have hempty : ∀ repo : String, repoAllowed [] repo = true := fun _ => rfl
  have hparse : parseAllowPatterns "" = [] := by decide
  refine ⟨by decide, by decide, hstar, hempty, ?_, by decide, by decide,
    by decide, by decide, by decide⟩
  intro repo
  rw [hparse]
  exact hempty repo

/-- A concrete commit for the CLI-mode theorems: its message carries no
trigger token, and its sha is the one recorded in the dedupe file below. -/
def commitSample : CommitInfo :=
  ⟨"deadbeefdeadbeefdeadbeefdeadbeefdeadbeef", "chore: tidy docs", "Alice",
    "main", "acme/widget",
    "https://github.com/acme/widget/commit/deadbeefdeadbeefdeadbeefdeadbeefdeadbeef",
    none⟩

/-- C7, counterexample.  The claim states that even under force a commit
whose key is already recorded in the dedupe store is skipped.  In part_001
the force flag returns `true` before the dedupe check: with the sample
commit's sha recorded in the dedupe file, `shouldPost` under force still
answers `true` (proceed to publish), not `false` (skip). -/
theorem c7_force_counterexample :
    hasSeenSha commitSample.sha (markSeenSha commitSample.sha none) = true ∧
    shouldPost commitSample true (markSeenSha commitSample.sha none) = true := by
  decide

/-- C7, amended.  The force flag bypasses every gate of `shouldPost`,
including the dedupe check (and the CLI path has no repo allowlist or
branch filter at all): under force the evaluation always proceeds; without
force a commit whose sha is recorded in the dedupe store is always
skipped. -/
theorem c7_force_bypasses_all_gates :
    (∀ (c : CommitInfo) (f : DedupeFile), shouldPost c true f = true) ∧
    (∀ (c : CommitInfo) (f : DedupeFile),
      hasSeenSha c.sha f = true → shouldPost c false f = false) := by
  refine ⟨fun c f => rfl, fun c f h => ?_⟩
  simp [shouldPost, h]

/-- Witness for C7's amended theorem at concrete inputs. -/
theorem c7_force_bypasses_all_gates_witness :
    shouldPost commitSample true (markSeenSha commitSample.sha none) = true ∧
    shouldPost commitSample false (markSeenSha commitSample.sha none) = false :=
  ⟨c7_force_bypasses_all_gates.1 commitSample (markSeenSha commitSample.sha none),
   c7_force_bypasses_all_gates.2 commitSample (markSeenSha commitSample.sha none)
     (by decide)⟩

/-- C8, counterexample.  The claim states that a transport error of the
summarization collaborator never aborts the post.  In main.ts `aiCondense`
has no try/catch around the `fetch`, so with an API key configured and
`AI_SUMMARY` not `off`, a thrown request propagates out of the condense
step instead of returning the input text. -/
theorem c8_transport_error_counterexample :
    aiCondense "sk-key" "on" FetchOutcome.threw "hello" = Except.error () := by
  rfl

/-- C8, amended.  A non-success HTTP response of the summarization
collaborator falls back to the pre-condensation text unchanged in every
implementation, and the CLI/hook implementation (part_001, mod.ts) also
catches a thrown request; but in the webhook implementation (main.ts) a
thrown request propagates and aborts the post. -/
theorem c8_condense_failure_fallback :
    (∀ (k a : String) (c : Option String) (t : String),
      aiCondense k a (FetchOutcome.responded false c) t = Except.ok t) ∧
    (∀ (a : String) (f : FetchOutcome) (t : String),
      aiCondense "" a f t = Except.ok t) ∧
    (∀ (k a : String) (ht : Bool) (c : Option String) (t : String),
      aiCondenseCli k a ht (FetchOutcome.responded false c) t = t) ∧
    (∀ (k a : String) (ht : Bool) (t : String),
      aiCondenseCli k a ht FetchOutcome.threw t = t) ∧
    (∀ (k a t : String), k ≠ "" → strToLower a ≠ "off" →
      aiCondense k a FetchOutcome.threw t = Except.error ()) := by
  refine ⟨?_, ?_, ?_, ?_, ?_⟩
  · intro k a c t
    unfold aiCondense
    split <;> rfl
  · intro a f t
    rfl
  · intro k a ht c t
    unfold aiCondenseCli
    split <;> rfl
  · intro k a ht t
    unfold aiCondenseCli
    split <;> rfl
  · intro k a t hk ha
    have hk' : (k == "") = false := beq_eq_false_iff_ne.mpr hk
    have ha' : (strToLower a == "off") = false := beq_eq_false_iff_ne.mpr ha
    simp [aiCondense, hk', ha']

/-- Witness for C8's amended theorem at concrete inputs. -/
theorem c8_condense_failure_fallback_witness :
    aiCondense "sk" "on" (FetchOutcome.responded false none) "fix v1.0.0" =
      Except.ok "fix v1.0.0" ∧
    aiCondenseCli "sk" "on" true FetchOutcome.threw "fix v1.0.0" = "fix v1.0.0" ∧
    aiCondense "sk" "on" FetchOutcome.threw "fix v1.0.0" = Except.error () :=
  ⟨c8_condense_failure_fallback.1 "sk" "on" none "fix v1.0.0",
   c8_condense_failure_fallback.2.2.2.1 "sk" "on" true "fix v1.0.0",
   c8_condense_failure_fallback.2.2.2.2 "sk" "on" "fix v1.0.0" (by decide) (by decide)⟩

/-! ## C10: local dedupe file round-trip -/

/-- Concatenation of dedupe keys as `markSeenSha` lays them out on disk:
each key followed by a newline. -/
def joinKeys : List (List Char) → List Char
  | [] => []
  | k :: ks => k ++ '\n' :: joinKeys ks

/-- Splitting never yields an empty list of pieces. -/
theorem splitOnChar_ne_nil (sep : Char) (l : List Char) : splitOnChar sep l ≠ [] := by
  cases l with
  | nil => simp [splitOnChar]
  | cons c rest =>
    simp only [splitOnChar]
    split
    · simp
    · split <;> simp

/-- Splitting a separator-free piece followed by a separator peels off that
piece. -/
theorem splitOnChar_append_sep (sep : Char) (s ys : List Char) (h : sep ∉ s) :
    splitOnChar sep (s ++ sep :: ys) = s :: splitOnChar sep ys := by
  induction s with
  | nil =>
    cases hys : splitOnChar sep ys with
    | nil => exact absurd hys (splitOnChar_ne_nil sep ys)
    | cons hd tl => simp [splitOnChar, hys]
  | cons c s' ih =>
    have hc : c ≠ sep := fun hh => h (by simp [hh])
    have h' : sep ∉ s' := fun hh => h (List.mem_cons_of_mem _ hh)
    simp only [List.cons_append, splitOnChar, List.append_eq]
    rw [ih h']
    simp [beq_eq_false_iff_ne.mpr hc]

/-- Splitting the on-disk layout of a key list recovers the keys (plus the
empty piece after the final newline). -/
theorem splitOnChar_joinKeys (keys : List (List Char))
    (h : ∀ k ∈ keys, '\n' ∉ k) :
    splitOnChar '\n' (joinKeys keys) = keys ++ [[]] := by
  induction keys with
  | nil => rfl
  | cons k ks ih =>
    have hk : '\n' ∉ k := h k (List.mem_cons_self k ks)
    have hks : ∀ k' ∈ ks, '\n' ∉ k' := fun k' hk' => h k' (List.mem_cons_of_mem _ hk')
    simp only [joinKeys, splitOnChar_append_sep '\n' k _ hk, ih hks, List.cons_append]

/-- Appending one key to the layout. -/
theorem joinKeys_concat (keys : List (List Char)) (k : List Char) :
    joinKeys (keys ++ [k]) = joinKeys keys ++ k ++ ['\n'] := by
  induction keys with
  | nil => simp [joinKeys]
  | cons k' ks ih => simp [joinKeys, ih]

/-- Reachable states of the local dedupe file: missing, or a concatenation
of newline-terminated keys (the only writer, `markSeenSha`, appends exactly
one such entry per call). -/
def WellFormedDedupe (file : DedupeFile) : Prop :=
  file = none ∨
    ∃ keys : List (List Char), (∀ k ∈ keys, '\n' ∉ k) ∧ file = some (joinKeys keys)

/-- C10.  Local dedupe file round-trip and frame: a missing or unreadable
file reads as unseen without failing; `markSeenSha` preserves the reachable
file shape; after `markSeenSha sha` the key `sha` (newline-free, no
surrounding whitespace) is seen; and recording `sha` leaves `hasSeenSha`
unchanged on every other non-empty key. -/
theorem c10_dedupe_roundtrip_frame :
    (∀ sha : String, hasSeenSha sha none = false) ∧
    (∀ (sha : String) (file : DedupeFile), WellFormedDedupe file →
      '\n' ∉ sha.data → WellFormedDedupe (markSeenSha sha file)) ∧
    (∀ (sha : String) (file : DedupeFile), WellFormedDedupe file →
      '\n' ∉ sha.data → trimChars sha.data = sha.data →
      hasSeenSha sha (markSeenSha sha file) = true) ∧
    (∀ (sha sha' : String) (file : DedupeFile), WellFormedDedupe file →
      '\n' ∉ sha.data → trimChars sha.data = sha.data →
      sha' ≠ sha → sha' ≠ "" →
      hasSeenSha sha' (markSeenSha sha file) = hasSeenSha sha' file) := by
  have hseen : ∀ (q : String) (keys : List (List Char)), (∀ k ∈ keys, '\n' ∉ k) →
      hasSeenSha q (some (joinKeys keys)) =
        (keys ++ [[]]).any (fun l => trimChars l == q.data) := by
    intro q keys hnl
    simp only [hasSeenSha, splitOnChar_joinKeys keys hnl]
  have hmark : ∀ (sha : String) (keys : List (List Char)),
      markSeenSha sha (some (joinKeys keys)) = some (joinKeys (keys ++ [sha.data])) := by
    intro sha keys
    simp [markSeenSha, joinKeys_concat]
  have hmarknone : ∀ sha : String, markSeenSha sha none = some (joinKeys [sha.data]) := by
    intro sha
    simp [markSeenSha, joinKeys]
  refine ⟨fun _ => rfl, ?_, ?_, ?_⟩
  · rintro sha file (rfl | ⟨keys, hnl, rfl⟩) hsha
    · exact Or.inr ⟨[sha.data], by simpa using hsha, hmarknone sha⟩
    · refine Or.inr ⟨keys ++ [sha.data], ?_, hmark sha keys⟩
      intro k hk
      rcases List.mem_append.mp hk with hk | hk
      · exact hnl k hk
      · simpa [List.mem_singleton.mp hk] using hsha
  · rintro sha file (rfl | ⟨keys, hnl, rfl⟩) hsha htrim
    · rw [hmarknone sha,
        hseen sha [sha.data] (by intro k hk; simpa [List.mem_singleton.mp hk] using hsha)]
      simp [htrim]
    · rw [hmark sha keys,
        hseen sha (keys ++ [sha.data]) ?hnl]
      case hnl =>
        intro k hk
        rcases List.mem_append.mp hk with hk | hk
        · exact hnl k hk
        · simpa [List.mem_singleton.mp hk] using hsha
      simp [htrim]
  · rintro sha sha' file (rfl | ⟨keys, hnl, rfl⟩) hsha htrim hne hne'
    · have hdata : (trimChars sha.data == sha'.data) = false := by
        rw [htrim]
        refine beq_eq_false_iff_ne.mpr fun hh => hne ?_
        exact String.ext hh.symm
      have hempty : (trimChars ([] : List Char) == sha'.data) = false := by
        refine beq_eq_false_iff_ne.mpr fun hh => hne' ?_
        exact (String.ext (show sha'.data = "".data from hh.symm))
      rw [hmarknone sha,
        hseen sha' [sha.data] (by intro k hk; simpa [List.mem_singleton.mp hk] using hsha)]
      simp [hasSeenSha, hdata, hempty]
    · have hdata : (trimChars sha.data == sha'.data) = false := by
        rw [htrim]
        refine beq_eq_false_iff_ne.mpr fun hh => hne ?_
        exact String.ext hh.symm
      have hempty : (trimChars ([] : List Char) == sha'.data) = false := by
        refine beq_eq_false_iff_ne.mpr fun hh => hne' ?_
        exact (String.ext (show sha'.data = "".data from hh.symm))
      have hnl' : ∀ k ∈ keys ++ [sha.data], '\n' ∉ k := by
        intro k hk
        rcases List.mem_append.mp hk with hk | hk
        · exact hnl k hk
        · simpa [List.mem_singleton.mp hk] using hsha
      rw [hmark sha keys, hseen sha' (keys ++ [sha.data]) hnl', hseen sha' keys hnl]
      simp [hdata, hempty]

/-- Witness for C10 at concrete inputs: recording `a1b2c3d` in a fresh
(missing) dedupe file makes it seen, leaves the distinct key `ffff999`
unseen, and a missing file reads as unseen. -/
theorem c10_dedupe_roundtrip_frame_witness :
    hasSeenSha "ffff999" none = false ∧
    hasSeenSha "a1b2c3d" (markSeenSha "a1b2c3d" none) = true ∧
    hasSeenSha "ffff999" (markSeenSha "a1b2c3d" none) = hasSeenSha "ffff999" none :=
  ⟨c10_dedupe_roundtrip_frame.1 "ffff999",
   c10_dedupe_roundtrip_frame.2.2.1 "a1b2c3d" none (Or.inl rfl) (by decide) (by decide),
   c10_dedupe_roundtrip_frame.2.2.2 "a1b2c3d" "ffff999" none (Or.inl rfl) (by decide)
     (by decide) (by decide) (by decide)⟩

/-! ## C4: signature verification -/

/-- Nat bitwise-or is zero iff both operands are. -/
theorem natLorEqZero (a b : Nat) : a ||| b = 0 ↔ a = 0 ∧ b = 0 := by
  constructor
  · intro h
    have hb : ∀ i, a.testBit i = false ∧ b.testBit i = false := by
      intro i
      have := congrArg (Nat.testBit · i) h
      simp [Nat.testBit_or] at this
      exact this
    exact ⟨Nat.eq_of_testBit_eq fun i => by simp [(hb i).1],
      Nat.eq_of_testBit_eq fun i => by simp [(hb i).2]⟩
  · rintro ⟨rfl, rfl⟩
    rfl

/-- Characters with equal code points are equal. -/
theorem charToNatInj (c d : Char) (h : c.toNat = d.toNat) : c = d :=
  Char.eq_of_val_eq (UInt32.toNat.inj h)

/-- The XOR-accumulate fold is zero iff the accumulator is zero and every
zipped pair of characters agrees. -/
theorem foldlLorXorZero (l : List (Char × Char)) (acc : Nat) :
    (l.foldl (fun ok p => ok ||| (p.1.toNat ^^^ p.2.toNat)) acc = 0) ↔
      (acc = 0 ∧ ∀ p ∈ l, p.1 = p.2) := by
  induction l generalizing acc with
  | nil => simp
  | cons p l ih =>
    simp only [List.foldl_cons, ih, natLorEqZero, List.mem_cons]
    constructor
    · rintro ⟨⟨hacc, hx⟩, hrest⟩
      refine ⟨hacc, fun q hq => ?_⟩
      rcases hq with rfl | hq
      · exact charToNatInj _ _ (Nat.xor_eq_zero.mp hx)
      · exact hrest q hq
    · rintro ⟨hacc, hall⟩
      refine ⟨⟨hacc, ?_⟩, fun q hq => hall q (Or.inr hq)⟩
      rw [hall p (Or.inl rfl)]
      simp

/-- Lists of equal length whose zip is pointwise equal are equal. -/
theorem eqOfZipEq (a b : List Char) (h : a.length = b.length)
    (hall : ∀ p ∈ a.zip b, p.1 = p.2) : a = b := by
  induction a generalizing b with
  | nil => cases b <;> simp_all
  | cons x xs ih =>
    cases b with
    | nil => simp at h
    | cons y ys =>
      have hx : x = y := hall (x, y) (by simp [List.zip_cons_cons])
      have hxs : xs = ys :=
        ih ys (by simpa using h) (fun p hp => hall p (by simp [List.zip_cons_cons, hp]))
      rw [hx, hxs]

/-- Every pair in the self-zip agrees. -/
theorem zipSelfEq (a : List Char) : ∀ p ∈ a.zip a, p.1 = p.2 := by
  induction a with
  | nil => simp
  | cons x xs ih =>
    intro p hp
    rcases (by simpa [List.zip_cons_cons] using hp : p = (x, x) ∨ p ∈ xs.zip xs) with rfl | hp
    · rfl
    · exact ih p hp

/-- The constant-time comparison of `verifyGitHubSignature` is an equality
test: for equal-length digests, the XOR fold is zero iff they agree. -/
theorem xorFoldZeroIff (a b : List Char) (h : a.length = b.length) :
    xorFold a b = 0 ↔ a = b := by
  unfold xorFold
  rw [foldlLorXorZero]
  constructor
  · rintro ⟨-, hall⟩
    exact eqOfZipEq a b h hall
  · rintro rfl
    exact ⟨rfl, zipSelfEq a⟩

/-- A list starts with itself followed by anything. -/
theorem leadsWithAppend (p l : List Char) : leadsWith p (p ++ l) = true := by
  induction p with
  | nil => rfl
  | cons c p ih => simp [leadsWith, ih]

/-- C4.  Signature verification: with the HMAC primitive (`crypto.subtle`
in the source) abstracted as an oracle `hmacHex`, verification succeeds on
the header `sha256=` followed by the digest of the body; it fails on any
other digest string after the marker (in particular any single-character
mutation of the signature), on any body whose digest differs (in particular
any single-byte body mutation, given HMAC-SHA256 collision freedom on the
pair), on an absent header, and on a header that does not start with
`sha256=` — always returning a Boolean, never failing. -/
theorem c4_signature_verification (hmacHex : String → List Nat → List Char)
    (secret : String) (raw : List Nat) :
    (verifyGitHubSignature hmacHex secret raw
      (some ⟨sigMarkChars ++ hmacHex secret raw⟩) = true) ∧
    (∀ their : List Char, their ≠ hmacHex secret raw →
      verifyGitHubSignature hmacHex secret raw
        (some ⟨sigMarkChars ++ their⟩) = false) ∧
    (∀ raw' : List Nat, hmacHex secret raw' ≠ hmacHex secret raw →
      verifyGitHubSignature hmacHex secret raw'
        (some ⟨sigMarkChars ++ hmacHex secret raw⟩) = false) ∧
    (verifyGitHubSignature hmacHex secret raw none = false) ∧
    (∀ sig : String, leadsWith sigMarkChars sig.data = false →
      verifyGitHubSignature hmacHex secret raw (some sig) = false) := by
  have hdrop : ∀ x : List Char, (sigMarkChars ++ x).drop 7 = x := by
    intro x
    rfl
  have hgen : ∀ (rawX : List Nat) (their : List Char),
      verifyGitHubSignature hmacHex secret rawX (some ⟨sigMarkChars ++ their⟩) =
      (if (their.length != (hmacHex secret rawX).length) = true then false
       else xorFold their (hmacHex secret rawX) == 0) := by
    intro rawX their
    simp only [verifyGitHubSignature, leadsWithAppend, Bool.not_true,
      Bool.false_eq_true, if_false]
    rw [hdrop]
  refine ⟨?_, ?_, ?_, rfl, ?_⟩
  · rw [hgen raw]
    have hb : ((hmacHex secret raw).length != (hmacHex secret raw).length) = false := by
      simp
    rw [hb]
    simp only [Bool.false_eq_true, if_false]
    have h0 : xorFold (hmacHex secret raw) (hmacHex secret raw) = 0 :=
      (xorFoldZeroIff _ _ rfl).mpr rfl
    simp [h0]
  · intro their hne
    rw [hgen raw]
    by_cases hl : their.length = (hmacHex secret raw).length
    · have hb : (their.length != (hmacHex secret raw).length) = false := by simp [hl]
      rw [hb]
      simp only [Bool.false_eq_true, if_false]
      rw [beq_eq_false_iff_ne]
      exact fun h0 => hne ((xorFoldZeroIff _ _ hl).mp h0)
    · have hb : (their.length != (hmacHex secret raw).length) = true := by simpa using hl
      rw [hb]
      simp
  · intro raw' hne
    rw [hgen raw']
    by_cases hl : (hmacHex secret raw).length = (hmacHex secret raw').length
    · have hb : ((hmacHex secret raw).length != (hmacHex secret raw').length) = false := by
        simp [hl]
      rw [hb]
      simp only [Bool.false_eq_true, if_false]
      rw [beq_eq_false_iff_ne]
      exact fun h0 => hne ((xorFoldZeroIff _ _ hl).mp h0).symm
    · have hb : ((hmacHex secret raw).length != (hmacHex secret raw').length) = true := by
        simpa using hl
      rw [hb]
      simp
  · intro sig hsig
    simp [verifyGitHubSignature, hsig]

/-- Witness for C4 at a concrete HMAC oracle and inputs: the correct header
verifies, a one-character signature mutation fails, a body whose digest
differs fails, a missing header fails, and a header without the `sha256=`
marker fails. -/
theorem c4_signature_verification_witness :
    (verifyGitHubSignature (fun _ r => if r = [1] then ['a', 'b'] else ['c', 'd'])
      "secret" [1] (some ⟨sigMarkChars ++ ['a', 'b']⟩) = true) ∧
    (verifyGitHubSignature (fun _ r => if r = [1] then ['a', 'b'] else ['c', 'd'])
      "secret" [1] (some ⟨sigMarkChars ++ ['a', 'c']⟩) = false) ∧
    (verifyGitHubSignature (fun _ r => if r = [1] then ['a', 'b'] else ['c', 'd'])
      "secret" [2] (some ⟨sigMarkChars ++ ['a', 'b']⟩) = false) ∧
    (verifyGitHubSignature (fun _ r => if r = [1] then ['a', 'b'] else ['c', 'd'])
      "secret" [1] none = false) ∧
    (verifyGitHubSignature (fun _ r => if r = [1] then ['a', 'b'] else ['c', 'd'])
      "secret" [1] (some "zha256=ab") = false) := by
  have h := c4_signature_verification
    (fun _ r => if r = [1] then ['a', 'b'] else ['c', 'd']) "secret" [1]
  refine ⟨?_, ?_, ?_, h.2.2.2.1, h.2.2.2.2 "zha256=ab" (by decide)⟩
  · have := h.1
    simpa using this
  · have := h.2.1 ['a', 'c'] (by decide)
    simpa using this
  · have := h.2.2.1 [2] (by decide)
    simpa using this

/-! ## C2: record only after a confirmed-successful publish -/

/-- C2.  The dedupe record is written only after a successful publish.  In
the webhook handler a `blueskyPostStatus` throw (publish failure, after its
internal auth retry) leaves the KV store untouched.  In the CLI path a
`publishPost` that returns an error (`AuthFailed` or `PostFailed`) leaves
the dedupe file untouched; and whenever the dedupe file changed at all, the
run was not a dry run, authentication succeeded and the post submission
returned successfully. -/
theorem c2_record_after_publish :
    (∀ (env : ServerEnv) (aiFetch : FetchOutcome) (now : String)
        (push : GitHubPush) (kv : KV),
      (handlePush env aiFetch (Except.error ()) now push kv).kv = kv) ∧
    (∀ (config : Config) (commit : CommitInfo) (authResult : Except String Unit)
        (postResult : Except String String) (file : DedupeFile) (e : BlueskyError),
      (publishPost config commit authResult postResult file).result = .error e →
      (publishPost config commit authResult postResult file).file = file) ∧
    (∀ (config : Config) (commit : CommitInfo) (authResult : Except String Unit)
        (postResult : Except String String) (file : DedupeFile),
      (publishPost config commit authResult postResult file).file ≠ file →
      config.dryRun = false ∧ authResult = Except.ok () ∧
        ∃ uri, postResult = Except.ok uri) := by
  refine ⟨?_, ?_, ?_⟩
  · intro env aiFetch now push kv
    simp only [handlePush]
    repeat' split
    all_goals rfl
  · intro config commit authResult postResult file e h
    unfold publishPost at h ⊢
    by_cases hd : config.dryRun = true
    · rw [if_pos hd] at h
      simp at h
    · rw [if_neg hd] at h ⊢
      cases authResult with
      | error m => rfl
      | ok u =>
        cases postResult with
        | error m => rfl
        | ok uri => simp at h
  · intro config commit authResult postResult file h
    unfold publishPost at h
    by_cases hd : config.dryRun = true
    · rw [if_pos hd] at h
      exact absurd rfl h
    · rw [if_neg hd] at h
      cases authResult with
      | error m => exact absurd rfl h
      | ok u =>
        cases postResult with
        | error m => exact absurd rfl h
        | ok uri =>
          exact ⟨by simpa using hd, by cases u; rfl, uri, rfl⟩

/-- Witness for C2 at concrete inputs: a failed webhook publish leaves the
KV store empty; a CLI `PostFailed` and a CLI `AuthFailed` leave the dedupe
file untouched; and a changed dedupe file implies the publish succeeded. -/
theorem c2_record_after_publish_witness :
    (handlePush ⟨"", [], "", "on"⟩ (FetchOutcome.responded true none)
      (Except.error ()) "2026-01-01T00:00:00Z"
      ⟨"refs/heads/main", ⟨"acme/widget", "https://github.com/acme/widget", "main"⟩,
        some ⟨"0123456789abcdef0123456789abcdef01234567", "fix: release v1.2.3",
          some "Alice"⟩⟩ []).kv = [] ∧
    (publishPost ⟨"https://bsky.social", "alice.bsky.social", "pass", false⟩
      commitSample (Except.ok ()) (Except.error "http 400") none).file = none ∧
    (publishPost ⟨"https://bsky.social", "alice.bsky.social", "pass", false⟩
      commitSample (Except.error "bad login") (Except.ok "at://x") none).file = none ∧
    ((⟨"https://bsky.social", "alice.bsky.social", "pass", false⟩ : Config).dryRun
        = false ∧
      (Except.ok () : Except String Unit) = Except.ok () ∧
      ∃ uri, (Except.ok "at://x" : Except String String) = Except.ok uri) :=
  ⟨c2_record_after_publish.1 ⟨"", [], "", "on"⟩ (FetchOutcome.responded true none)
      "2026-01-01T00:00:00Z"
      ⟨"refs/heads/main", ⟨"acme/widget", "https://github.com/acme/widget", "main"⟩,
        some ⟨"0123456789abcdef0123456789abcdef01234567", "fix: release v1.2.3",
          some "Alice"⟩⟩ [],
   c2_record_after_publish.2.1 _ commitSample (Except.ok ()) (Except.error "http 400")
      none (.PostFailed "http 400") rfl,
   c2_record_after_publish.2.1 _ commitSample (Except.error "bad login")
      (Except.ok "at://x") none (.AuthFailed "bad login") rfl,
   c2_record_after_publish.2.2 ⟨"https://bsky.social", "alice.bsky.social", "pass", false⟩
      commitSample (Except.ok ()) (Except.ok "at://x") none (by simp [publishPost, markSeenSha])⟩

/-! ## C1: at-most-once publish per dedupe key -/

/-- One `handlePush` invocation either leaves the KV store untouched or
inserts a single record under a key that was previously absent. -/
theorem handlePushKvShape (env : ServerEnv) (aiFetch : FetchOutcome)
    (publish : Except Unit String) (now : String) (push : GitHubPush) (kv : KV) :
    (handlePush env aiFetch publish now push kv).kv = kv ∨
    ∃ key' r', kvGet kv key' = none ∧
      (handlePush env aiFetch publish now push kv).kv = kvSet kv key' r' := by
  simp only [handlePush]
  repeat' split
  all_goals first
    | exact Or.inl rfl
    | exact Or.inr ⟨_, _, by assumption, rfl⟩

/-- Records in the KV store survive any `handlePush` invocation. -/
theorem handlePushKvMonotone (env : ServerEnv) (aiFetch : FetchOutcome)
    (publish : Except Unit String) (now : String) (push : GitHubPush) (kv : KV)
    (key : String × String) (r : PostRecord) (h : kvGet kv key = some r) :
    kvGet (handlePush env aiFetch publish now push kv).kv key = some r := by
  rcases handlePushKvShape env aiFetch publish now push kv with h1 | ⟨key', r', hnone, h1⟩
  · rw [h1]
    exact h
  · rw [h1]
    simp only [kvSet, kvGet]
    split
    · rename_i hk
      subst hk
      simp [hnone] at h
    · exact h

/-- A delivery whose push carries an already-recorded key never reaches the
publisher and leaves the KV store untouched. -/
theorem handlePushRecordedSkip (env : ServerEnv) (aiFetch : FetchOutcome)
    (publish : Except Unit String) (now : String) (push : GitHubPush) (kv : KV)
    (key : String × String) (r : PostRecord)
    (hcar : carriesKey push key = true) (h : kvGet kv key = some r) :
    (handlePush env aiFetch publish now push kv).published = [] ∧
    (handlePush env aiFetch publish now push kv).kv = kv := by
  obtain ⟨k1, k2⟩ := key
  cases hhc : push.head_commit with
  | none =>
    simp only [carriesKey, hhc, Bool.and_eq_true] at hcar
    exact absurd hcar.2 (by simp)
  | some hc =>
    simp only [carriesKey, hhc, Bool.and_eq_true, beq_iff_eq] at hcar
    obtain ⟨h1, h2⟩ := hcar
    simp only [handlePush, hhc]
    repeat' split
    all_goals first
      | exact ⟨rfl, rfl⟩
      | simp_all

/-- C1.  At-most-once publish per dedupe key under sequential deliveries.
First conjunct: once a record for `key` is in the KV store, a sequence of
further deliveries makes zero publisher calls for that key, whatever each
delivery's payload and oracle outcomes are.  Second conjunct: if a delivery
of some payload was answered `posted`, it made exactly one publisher call,
and re-delivering the identical payload (with any oracle outcomes) is
answered `skip` with reason `already_posted` and the stored post URI, with
no publisher call. -/
theorem c1_at_most_once_per_key :
    (∀ (env : ServerEnv) (key : String × String) (r : PostRecord) (kv : KV)
        (ds : List Delivery),
      kvGet kv key = some r → publishCountFor env key kv ds = 0) ∧
    (∀ (env : ServerEnv) (push : GitHubPush) (kv : KV)
        (aiF1 : FetchOutcome) (pub1 : Except Unit String) (now1 : String)
        (aiF2 : FetchOutcome) (pub2 : Except Unit String) (now2 : String)
        (resp : HandleResponse),
      (handlePush env aiF1 pub1 now1 push kv).response = some resp →
      resp.status = "posted" →
      (handlePush env aiF1 pub1 now1 push kv).published.length = 1 ∧
      (handlePush env aiF2 pub2 now2 push
          (handlePush env aiF1 pub1 now1 push kv).kv).response =
        some ⟨"skip", some "already_posted", resp.postUri, none, none⟩ ∧
      (handlePush env aiF2 pub2 now2 push
          (handlePush env aiF1 pub1 now1 push kv).kv).published = []) := by
  constructor
  · intro env key r kv ds h
    induction ds generalizing kv with
    | nil => rfl
    | cons d ds ih =>
      simp only [publishCountFor]
      have hmono := handlePushKvMonotone env d.aiFetch d.publish d.now d.push kv key r h
      by_cases hck : carriesKey d.push key = true
      · have hskip := handlePushRecordedSkip env d.aiFetch d.publish d.now d.push kv
          key r hck h
        simp [hck, hskip.1, ih _ hmono]
      · have hck' : carriesKey d.push key = false := by simpa using hck
        simp [hck', ih _ hmono]
  · intro env push kv aiF1 pub1 now1 aiF2 pub2 now2 resp h1 h2
    simp only [handlePush] at h1 ⊢
    by_cases hra : (!repoAllowed env.ALLOW_PATTERNS push.repository.full_name) = true
    · rw [if_pos hra] at h1
      obtain rfl : resp = ⟨"skip", some "repo_not_allowed", none, none, none⟩ := by
        simpa using h1.symm
      simp at h2
    · rw [if_neg hra] at h1 ⊢
      cases hhc : push.head_commit with
      | none =>
        rw [hhc] at h1
        simp only [] at h1
        obtain rfl : resp = ⟨"skip", some "no_head_commit", none, none, none⟩ := by
          simpa using h1.symm
        simp at h2
      | some hc =>
        rw [hhc] at h1
        simp only [] at h1 ⊢
        by_cases hbr : (push.ref !=
            "refs/heads/" ++ (if (env.BRANCH_ONLY == "") = true
              then push.repository.default_branch else env.BRANCH_ONLY)) = true
        · rw [if_pos hbr] at h1
          obtain rfl : resp = ⟨"skip", some "wrong_branch", none, some push.ref,
              some ("refs/heads/" ++ (if (env.BRANCH_ONLY == "") = true
                then push.repository.default_branch else env.BRANCH_ONLY))⟩ := by
            simpa using h1.symm
          simp at h2
        · rw [if_neg hbr] at h1 ⊢
          by_cases hsv : (!hasSemver hc.message) = true
          · rw [if_pos hsv] at h1
            obtain rfl : resp = ⟨"skip", some "no_semver", none, none, none⟩ := by
              simpa using h1.symm
            simp at h2
          · rw [if_neg hsv] at h1 ⊢
            cases hkv : kvGet kv (push.repository.full_name, hc.id) with
            | some r0 =>
              rw [hkv] at h1
              simp only [] at h1
              obtain rfl : resp = ⟨"skip", some "already_posted", some r0.postUri,
                  none, none⟩ := by
                simpa using h1.symm
              simp at h2
            | none =>
              rw [hkv] at h1
              simp only [] at h1 ⊢
              cases hai : aiCondense env.OPENAI_API_KEY env.AI_SUMMARY aiF1
                  (strTrim (firstLineOf hc.message)) with
              | error e =>
                try rw [hai] at h1
                simp at h1
              | ok condensed =>
                try rw [hai] at h1
                try rw [hai]
                simp only [] at h1 ⊢
                cases hpub : pub1 with
                | error e =>
                  try rw [hpub] at h1
                  simp at h1
                | ok uri =>
                  try rw [hpub] at h1
                  try rw [hpub]
                  simp only [] at h1 ⊢
                  obtain rfl : resp = ⟨"posted", none, some uri, none, none⟩ := by
                    simpa using h1.symm
                  refine ⟨rfl, ?_, ?_⟩ <;>
                    (rw [if_neg hra, if_neg hbr, if_neg hsv]; simp [kvSet, kvGet])

/-- Witness for C1 at concrete inputs: with a record for the key already in
the KV store, one further delivery of a matching payload makes zero publish
calls; and a concrete first delivery answered `posted` is followed by a
second identical delivery answered `skip`/`already_posted` with the stored
URI and no publish call. -/
theorem c1_at_most_once_per_key_witness :
    publishCountFor ⟨"", [], "", "on"⟩
      ("acme/widget", "0123456789abcdef0123456789abcdef01234567")
      [(("acme/widget", "0123456789abcdef0123456789abcdef01234567"),
        ⟨"2026-01-01T00:00:00Z", "at://x", "p"⟩)]
      [⟨⟨"refs/heads/main", ⟨"acme/widget", "https://github.com/acme/widget", "main"⟩,
          some ⟨"0123456789abcdef0123456789abcdef01234567", "fix: release v1.2.3",
            some "Alice"⟩⟩,
        FetchOutcome.responded true none, Except.ok "at://y",
        "2026-01-02T00:00:00Z"⟩] = 0 ∧
    ((handlePush ⟨"", [], "", "on"⟩ (FetchOutcome.responded true none)
        (Except.ok "at://x") "2026-01-01T00:00:00Z"
        ⟨"refs/heads/main", ⟨"acme/widget", "https://github.com/acme/widget", "main"⟩,
          some ⟨"0123456789abcdef0123456789abcdef01234567", "fix: release v1.2.3",
            some "Alice"⟩⟩ []).published.length = 1 ∧
      (handlePush ⟨"", [], "", "on"⟩ (FetchOutcome.responded true none)
          (Except.ok "at://z") "2026-01-03T00:00:00Z"
          ⟨"refs/heads/main", ⟨"acme/widget", "https://github.com/acme/widget", "main"⟩,
            some ⟨"0123456789abcdef0123456789abcdef01234567", "fix: release v1.2.3",
              some "Alice"⟩⟩
          (handlePush ⟨"", [], "", "on"⟩ (FetchOutcome.responded true none)
            (Except.ok "at://x") "2026-01-01T00:00:00Z"
            ⟨"refs/heads/main", ⟨"acme/widget", "https://github.com/acme/widget", "main"⟩,
              some ⟨"0123456789abcdef0123456789abcdef01234567", "fix: release v1.2.3",
                some "Alice"⟩⟩ []).kv).response =
        some ⟨"skip", some "already_posted",
          (⟨"posted", none, some "at://x", none, none⟩ : HandleResponse).postUri,
          none, none⟩ ∧
      (handlePush ⟨"", [], "", "on"⟩ (FetchOutcome.responded true none)
          (Except.ok "at://z") "2026-01-03T00:00:00Z"
          ⟨"refs/heads/main", ⟨"acme/widget", "https://github.com/acme/widget", "main"⟩,
            some ⟨"0123456789abcdef0123456789abcdef01234567", "fix: release v1.2.3",
              some "Alice"⟩⟩
          (handlePush ⟨"", [], "", "on"⟩ (FetchOutcome.responded true none)
            (Except.ok "at://x") "2026-01-01T00:00:00Z"
            ⟨"refs/heads/main", ⟨"acme/widget", "https://github.com/acme/widget", "main"⟩,
              some ⟨"0123456789abcdef0123456789abcdef01234567", "fix: release v1.2.3",
                some "Alice"⟩⟩ []).kv).published = []) :=
  ⟨c1_at_most_once_per_key.1 ⟨"", [], "", "on"⟩
      ("acme/widget", "0123456789abcdef0123456789abcdef01234567")
      ⟨"2026-01-01T00:00:00Z", "at://x", "p"⟩ _ _ (by decide),
   c1_at_most_once_per_key.2 ⟨"", [], "", "on"⟩
      ⟨"refs/heads/main", ⟨"acme/widget", "https://github.com/acme/widget", "main"⟩,
        some ⟨"0123456789abcdef0123456789abcdef01234567", "fix: release v1.2.3",
          some "Alice"⟩⟩ []
      (FetchOutcome.responded true none) (Except.ok "at://x") "2026-01-01T00:00:00Z"
      (FetchOutcome.responded true none) (Except.ok "at://z") "2026-01-03T00:00:00Z"
      ⟨"posted", none, some "at://x", none, none⟩ (by decide) (by decide)⟩

/-! ## C6: the end-to-end webhook scenario -/

/-- The 40-character head-commit sha of the spec's end-to-end scenario. -/
def shaC6 : String := "0123456789abcdef0123456789abcdef01234567"

/-- The push payload of the spec's end-to-end scenario: ref
`refs/heads/main`, default branch `main`, head-commit message
`fix: release v1.2.3`. -/
def pushC6 : GitHubPush :=
  ⟨"refs/heads/main", ⟨"acme/widget", "https://github.com/acme/widget", "main"⟩,
    some ⟨shaC6, "fix: release v1.2.3", some "Alice"⟩⟩

/-- The server environment of the scenario: no branch restriction, empty
allowlist, AI summarization disabled (no API key). -/
def envC6 : ServerEnv := ⟨"", [], "", "on"⟩

/-- The post URI returned by the publisher in the scenario. -/
def uriC6 : String := "at://did:plc:ex/app.bsky.feed.post/3k"

/-- The status text main.ts composes for the scenario. -/
def textC6 : String :=
  "fix: release v1.2.3 — acme/widget by Alice (0123456) https://github.com/acme/widget/commit/0123456789abcdef0123456789abcdef01234567 #gh_0123456"

/-- C6, counterexample.  The claim states the published text does not
contain the raw 40-character sha.  Running the handler on the scenario's
payload with no prior dedupe record yields `posted` and exactly one publish
call — but its text embeds the full commit URL, which contains the raw
40-character sha, so the containment claim is false. -/
theorem c6_sha_in_text_counterexample :
    (handlePush envC6 (FetchOutcome.responded true none) (Except.ok uriC6)
      "2026-10-12T00:00:00Z" pushC6 []).response =
        some ⟨"posted", none, some uriC6, none, none⟩ ∧
    (handlePush envC6 (FetchOutcome.responded true none) (Except.ok uriC6)
      "2026-10-12T00:00:00Z" pushC6 []).published = [textC6] ∧
    strContains textC6 shaC6 = true := by
  set_option maxRecDepth 4096 in decide

/-- C6, amended.  For the scenario's payload (valid signature assumed at
the routing layer), empty allowlist, no prior dedupe record and AI
summarization disabled, the handler answers `posted` and makes exactly one
publish call whose text contains `v1.2.3`; the text also contains the full
commit URL, which embeds the raw 40-character sha. -/
theorem c6_end_to_end_scenario :
    (handlePush envC6 (FetchOutcome.responded true none) (Except.ok uriC6)
      "2026-10-12T00:00:00Z" pushC6 []).response =
        some ⟨"posted", none, some uriC6, none, none⟩ ∧
    (handlePush envC6 (FetchOutcome.responded true none) (Except.ok uriC6)
      "2026-10-12T00:00:00Z" pushC6 []).published = [textC6] ∧
    strContains textC6 "v1.2.3" = true ∧
    strContains textC6 ("https://github.com/acme/widget/commit/" ++ shaC6) = true := by
  set_option maxRecDepth 4096 in decide

end BlueskyBot

